import Mathlib

/-!
# Verification of the HS Mapping Tool core (src/app.py)

Shallow embedding of the prefix-alignment / relation-classification engine:
the code normalizer (`process_tree_data`), the pairwise relation classifier
(`analyze_pairs_cached`), the strict one-to-one extractor
(`get_strict_one_to_one_cached`) and the entity (ASIN) mapper
(`map_asins_fast`).  Strings are modelled as Lean `String`s, raw code text
as `List Char`, the prefix index as an association list
`prefix → market → list of codes`, mirroring the Python dict
`lookup[prefix][market]`.
-/

namespace HSMap

/-- The five relation labels emitted by the classifiers. -/
inductive Relation where
  | noMatch
  | oneToOne
  | oneToMany
  | manyToOne
  | manyToMany
deriving DecidableEq, Repr

/-- Sub-mapping `market → codes` of the index at one prefix
(`lookup[prefix]` in the Python code). -/
abbrev MarketCodes := List (String × List String)

/-- The prefix index: `prefix → market → distinct codes`
(the dict built by `build_prefix_lookup`). -/
abbrev Lookup := List (String × MarketCodes)

/-- Model of `market_codes.get(m, [])`: the codes a market has at a prefix,
defaulting to the empty list when the market is absent. -/
def getCodes (mc : MarketCodes) (m : String) : List String :=
  (mc.lookup m).getD []

/-- Insert a string into a lexicographically sorted list, keeping it sorted. -/
def insertSorted (x : String) : List String → List String
  | [] => [x]
  | y :: ys => if x ≤ y then x :: y :: ys else y :: insertSorted x ys

/-- Python `sorted(codes)`: lexicographic insertion sort. -/
def sortCodes (l : List String) : List String :=
  l.foldr insertSorted []

/-- The if/elif chain of `analyze_pairs_cached` (src/app.py lines 83-97):
classify the pair of distinct-code counts `(cA, cB)` at one prefix. -/
def classify (cA cB : Nat) : Relation :=
  if cA = 0 ∨ cB = 0 then .noMatch
  else if cA = 1 ∧ cB = 1 then .oneToOne
  else if cA = 1 ∧ cB > 1 then .oneToMany
  else if cA > 1 ∧ cB = 1 then .manyToOne
  else .manyToMany

/-- The if/elif chain of `map_asins_fast` (src/app.py lines 174-183):
classify source count `sc` against target count `tc`.  Note it tests only
`tc == 0` for "No Match", unlike `classify`. -/
def classifyMap (sc tc : Nat) : Relation :=
  if tc = 0 then .noMatch
  else if sc = 1 ∧ tc = 1 then .oneToOne
  else if sc = 1 ∧ tc > 1 then .oneToMany
  else if sc > 1 ∧ tc = 1 then .manyToOne
  else .manyToMany

/-- One row of the pairwise report (`analyze_pairs_cached` inner loop):
prefix, relation, the two counts and up to 5 sorted sample codes per side. -/
structure PairRow where
  pfx : String
  relation : Relation
  cA : Nat
  cB : Nat
  codesA : List String
  codesB : List String
deriving DecidableEq, Repr

/-- Build the report row for one index entry and the market pair `(A, B)`. -/
def pairRow (A B : String) (e : String × MarketCodes) : PairRow :=
  let codes_A := getCodes e.2 A
  let codes_B := getCodes e.2 B
  { pfx := e.1
    relation := classify codes_A.length codes_B.length
    cA := codes_A.length
    cB := codes_B.length
    codesA := (sortCodes codes_A).take 5
    codesB := (sortCodes codes_B).take 5 }

/-- The per-pair report of `analyze_pairs_cached`: one row per index prefix. -/
def analyzePair (lookup : Lookup) (A B : String) : List PairRow :=
  lookup.map (pairRow A B)

/-- The `pair_stats` counters of `analyze_pairs_cached`. -/
structure PairStats where
  one_to_one : Nat
  one_to_many : Nat
  many_to_one : Nat
  many_to_many : Nat
  no_match : Nat
deriving DecidableEq, Repr

/-- Final counter values: each branch of the classifier chain increments
exactly the counter named after the relation it assigns, so each counter
counts the prefixes labelled with that relation. -/
def pairStats (lookup : Lookup) (A B : String) : PairStats :=
  { one_to_one := (analyzePair lookup A B).countP (fun r => r.relation = .oneToOne)
    one_to_many := (analyzePair lookup A B).countP (fun r => r.relation = .oneToMany)
    many_to_one := (analyzePair lookup A B).countP (fun r => r.relation = .manyToOne)
    many_to_many := (analyzePair lookup A B).countP (fun r => r.relation = .manyToMany)
    no_match := (analyzePair lookup A B).countP (fun r => r.relation = .noMatch) }

/-- Model of `total = one_to_one + one_to_many + many_to_one + many_to_many`
(src/app.py line 111), stored as `pair_stats["total_shared"]`. -/
def totalShared (s : PairStats) : Nat :=
  s.one_to_one + s.one_to_many + s.many_to_one + s.many_to_many

/-- Model of `pair_stats["percentage"]` (src/app.py line 113):
`one_to_one / total * 100` guarded to `0` when `total == 0`. -/
def matchPercentage (s : PairStats) : ℚ :=
  if totalShared s > 0 then (s.one_to_one : ℚ) / (totalShared s) * 100 else 0

/-!
## Strict one-to-one extractor (`get_strict_one_to_one_cached`, lines 119-145)
-/

/-- The inner `for market in markets` loop at one prefix (lines 129-137):
walk the markets, skip markets with no codes, record the single code of a
market with exactly one, and break with `is_strict = False` (modelled as
`none`) as soon as a market has more than one code.  On success returns the
`codes_found` bindings and the `markets_with_codes` counter. -/
def strictScan (mc : MarketCodes) : List String → Option (List (String × String) × Nat)
  | [] => some ([], 0)
  | m :: ms =>
    let codes := getCodes mc m
    if codes.length = 0 then strictScan mc ms
    else if codes.length = 1 then
      (strictScan mc ms).map (fun r => ((m, codes.headD "") :: r.1, r.2 + 1))
    else none

/-- One row of the strict report: the prefix and, per market, the
`Code_{market}` cell. -/
structure StrictRow where
  pfx : String
  cells : List (String × String)
deriving DecidableEq, Repr

/-- Lines 139-143: emit a row for a prefix when the scan survived
(`is_strict`) and `markets_with_codes >= 2`; the cell of each market is
`codes_found.get(market, "")`. -/
def strictRowOf (markets : List String) (e : String × MarketCodes) : Option StrictRow :=
  (strictScan e.2 markets).bind fun r =>
    if 2 ≤ r.2 then
      some { pfx := e.1, cells := markets.map (fun m => (m, (r.1.lookup m).getD "")) }
    else none

/-- The full strict one-to-one report: one optional row per index prefix. -/
def strictRows (lookup : Lookup) (markets : List String) : List StrictRow :=
  lookup.filterMap (strictRowOf markets)

/-!
## Entity (ASIN) mapper (`map_asins_fast`, lines 147-191)
-/

/-- One normalized input entity: `ASIN`, normalized `hs_code` and its prefix. -/
structure AsinRow where
  asin : String
  hs_code : String
  pfx : String
deriving DecidableEq, Repr

/-- The per-target part of a mapping result row: the `{target}_Relation`
label and the `{target}_Code_i` sample codes. -/
structure TargetResult where
  target : String
  relation : Relation
  sampleCodes : List String
deriving DecidableEq, Repr

/-- One output row of `map_asins_fast`. -/
structure MapResult where
  asin : String
  sourceCode : String
  pfx : String
  targets : List TargetResult
deriving DecidableEq, Repr

/-- The loop body of `map_asins_fast` for one entity row: fetch
`lookup.get(prefix, {})` (the `mini_lookup` indirection in the source is
semantically exactly this), take `sc = len(market_codes.get(source_market,
[]))`, and classify against the count of each target with `classifyMap`,
attaching up to 5 sorted target codes. -/
def mapAsinRow (lookup : Lookup) (sourceMarket : String) (targetMarkets : List String)
    (row : AsinRow) : MapResult :=
  let market_codes := (lookup.lookup row.pfx).getD []
  let sc := (getCodes market_codes sourceMarket).length
  { asin := row.asin
    sourceCode := row.hs_code
    pfx := row.pfx
    targets := targetMarkets.map fun t =>
      let target_codes := getCodes market_codes t
      { target := t
        relation := classifyMap sc target_codes.length
        sampleCodes := (sortCodes target_codes).take 5 } }

/-- Model of `map_asins_fast`: one result row per input entity row, in order. -/
def mapAsins (rows : List AsinRow) (lookup : Lookup) (sourceMarket : String)
    (targetMarkets : List String) : List MapResult :=
  rows.map (mapAsinRow lookup sourceMarket targetMarkets)

/-!
## Code normalizer (`process_tree_data`, lines 26-47)
-/

/-- Python `str.strip()`: drop whitespace from both ends. -/
def pyStrip (s : List Char) : List Char :=
  ((s.dropWhile Char.isWhitespace).reverse.dropWhile Char.isWhitespace).reverse

/-- The regex replace `\.0$` → empty (line 41): strip one trailing
literal `.0`. -/
def stripDotZero (s : List Char) : List Char :=
  if 2 ≤ s.length ∧ s.drop (s.length - 2) = ['.', '0'] then s.take (s.length - 2) else s

/-- The regex replace `[^0-9]` → empty (line 42): keep only digits. -/
def digitsOnly (s : List Char) : List Char :=
  s.filter Char.isDigit

/-- The full cleaning chain of lines 40-42. -/
def normalizeCode (s : List Char) : List Char :=
  digitsOnly (stripDotZero (pyStrip s))

/-- Lines 40-44 applied to one raw cell: `none` when the row is dropped by
the `len >= 4` filter, otherwise the normalized code and its
`str[:digits]` prefix (digits = 6). -/
def processRow (s : List Char) : Option (List Char × List Char) :=
  let code := normalizeCode s
  if 4 ≤ code.length then some (code, code.take 6) else none

/-- Lines 31-32: a column name matches when its lowercase form contains
`hs`, `hts` or `code` as a substring. -/
def matchesHS (col : List Char) : Bool :=
  let l := col.map Char.toLower
  decide (List.IsInfix ['h', 's'] l) || decide (List.IsInfix ['h', 't', 's'] l)
    || decide (List.IsInfix ['c', 'o', 'd', 'e'] l)

/-- Lines 29-36: the first matching column, else the first column
(`df.columns[0]`). -/
def selectCodeCol (cols : List (List Char)) : Option (List Char) :=
  match cols.find? matchesHS with
  | some c => some c
  | none => cols.head?

/-!
## Concrete example inputs, used to instantiate the theorems below
-/

/-- One index entry: at prefix `100001`, UAE registers one code and KSA two. -/
def exEntry : String × MarketCodes :=
  ("100001", [("UAE", ["10000110"]), ("KSA", ["10000110", "10000120"])])

/-- A small two-prefix index. -/
def exIndex : Lookup :=
  [exEntry, ("100002", [("KSA", ["10000210"])])]

/-- An entity whose prefix is present in `exIndex`. -/
def exEntity : AsinRow := { asin := "A1", hs_code := "10000110", pfx := "100001" }

/-- An entity whose prefix is absent from `exIndex`. -/
def exEntityAbsent : AsinRow := { asin := "A2", hs_code := "99999910", pfx := "999999" }

/-!
## Theorems
-/

/-- Case analysis of the pairwise classifier chain. -/
lemma classify_spec (a b : Nat) :
    (a = 0 ∨ b = 0 → classify a b = Relation.noMatch) ∧
    (a = 1 ∧ b = 1 → classify a b = Relation.oneToOne) ∧
    (a = 1 ∧ 1 < b → classify a b = Relation.oneToMany) ∧
    (1 < a ∧ b = 1 → classify a b = Relation.manyToOne) ∧
    (1 < a ∧ 1 < b → classify a b = Relation.manyToMany) := by
  unfold classify
  refine ⟨?_, ?_, ?_, ?_, ?_⟩ <;> intro h <;> split_ifs <;> first | rfl | (exfalso; omega)

/-- Swapping the two counts swaps `oneToMany` with `manyToOne` and fixes the
other labels. -/
lemma classify_comm (a b : Nat) :
    (classify b a = Relation.oneToOne ↔ classify a b = Relation.oneToOne) ∧
    (classify b a = Relation.oneToMany ↔ classify a b = Relation.manyToOne) ∧
    (classify b a = Relation.manyToMany ↔ classify a b = Relation.manyToMany) ∧
    (classify b a = Relation.noMatch ↔ classify a b = Relation.noMatch) := by
  unfold classify
  split_ifs <;> first | (exfalso; omega) | simp

/-- The entity-mapper chain agrees with the pairwise chain except that a
zero source count with a nonempty target yields `manyToMany`. -/
lemma classifyMap_spec (sc tc : Nat) :
    classifyMap sc tc =
      if sc = 0 ∧ 0 < tc then Relation.manyToMany else classify sc tc := by
  unfold classifyMap classify
  split_ifs <;> first | rfl | (exfalso; omega)

/-- **C2.** For every pair of markets and every prefix in the index, the
pairwise classifier emits exactly one row per prefix, the counts in the row
are the code counts of the two markets at that prefix, and the relation
follows the rule: `cA==0 or cB==0 → NoMatch`; `cA==1 and cB==1 → OneToOne`;
`cA==1 and cB>1 → OneToMany`; `cA>1 and cB==1 → ManyToOne`; otherwise
`ManyToMany`. -/
theorem analyzePair_classification (lookup : Lookup) (A B : String) :
    (analyzePair lookup A B).length = lookup.length ∧
    (∀ e ∈ lookup, pairRow A B e ∈ analyzePair lookup A B ∧
      (pairRow A B e).cA = (getCodes e.2 A).length ∧
      (pairRow A B e).cB = (getCodes e.2 B).length) ∧
    ∀ row ∈ analyzePair lookup A B,
      (row.cA = 0 ∨ row.cB = 0 → row.relation = Relation.noMatch) ∧
      (row.cA = 1 ∧ row.cB = 1 → row.relation = Relation.oneToOne) ∧
      (row.cA = 1 ∧ 1 < row.cB → row.relation = Relation.oneToMany) ∧
      (1 < row.cA ∧ row.cB = 1 → row.relation = Relation.manyToOne) ∧
      (1 < row.cA ∧ 1 < row.cB → row.relation = Relation.manyToMany) := by
  refine ⟨List.length_map _ _, fun e he => ⟨List.mem_map_of_mem _ he, rfl, rfl⟩, ?_⟩
  intro row hrow
  rw [analyzePair, List.mem_map] at hrow
  obtain ⟨e, -, rfl⟩ := hrow
  exact classify_spec _ _

/-- Witness for C2: on `exIndex`, the pair (UAE, KSA) at prefix `100001`
has counts (1, 2) and is classified `OneToMany`. -/
theorem analyzePair_classification_witness :
    pairRow "UAE" "KSA" exEntry ∈ analyzePair exIndex "UAE" "KSA" ∧
    (pairRow "UAE" "KSA" exEntry).cA = 1 ∧ (pairRow "UAE" "KSA" exEntry).cB = 2 ∧
    (pairRow "UAE" "KSA" exEntry).relation = Relation.oneToMany := by
  have hmem : pairRow "UAE" "KSA" exEntry ∈ analyzePair exIndex "UAE" "KSA" :=
    List.mem_map_of_mem _ (by simp [exIndex])
  refine ⟨hmem, rfl, rfl, ?_⟩
  exact ((analyzePair_classification exIndex "UAE" "KSA").2.2
    (pairRow "UAE" "KSA" exEntry) hmem).2.2.1 ⟨rfl, by decide⟩

/-- Every row is labelled with exactly one of the five relations, so the
five per-relation counters sum to the number of rows. -/
lemma sum_counts (l : List PairRow) :
    l.countP (fun r => r.relation = Relation.oneToOne)
      + l.countP (fun r => r.relation = Relation.oneToMany)
      + l.countP (fun r => r.relation = Relation.manyToOne)
      + l.countP (fun r => r.relation = Relation.manyToMany)
      + l.countP (fun r => r.relation = Relation.noMatch) = l.length := by
  induction l with
  | nil => rfl
  | cons x xs ih =>
    simp only [List.countP_cons, List.length_cons]
    cases hx : x.relation <;> simp [hx] <;> omega

/-- **C4.** For every pair of markets, the five aggregate relation counts
sum to the number of distinct prefixes in the index (the index keys are
distinct, being Python dict keys; the hypothesis records this). -/
theorem pairStats_total (lookup : Lookup) (A B : String)
    (h : (lookup.map Prod.fst).Nodup) :
    (pairStats lookup A B).one_to_one + (pairStats lookup A B).one_to_many
      + (pairStats lookup A B).many_to_one + (pairStats lookup A B).many_to_many
      + (pairStats lookup A B).no_match
      = ((lookup.map Prod.fst).dedup).length := by
  rw [List.dedup_eq_self.mpr h, List.length_map]
  have hs := sum_counts (analyzePair lookup A B)
  rw [analyzePair, List.length_map] at hs
  exact hs

/-- Witness for C4 at the concrete index `exIndex`. -/
theorem pairStats_total_witness :
    ((exIndex.map Prod.fst).Nodup) ∧
    (pairStats exIndex "UAE" "KSA").one_to_one + (pairStats exIndex "UAE" "KSA").one_to_many
      + (pairStats exIndex "UAE" "KSA").many_to_one + (pairStats exIndex "UAE" "KSA").many_to_many
      + (pairStats exIndex "UAE" "KSA").no_match
      = ((exIndex.map Prod.fst).dedup).length :=
  ⟨by decide, pairStats_total exIndex "UAE" "KSA" (by decide)⟩

/-- **C5.** Swapping the roles of A and B swaps the OneToMany and ManyToOne
aggregate counts and leaves OneToOne, ManyToMany and NoMatch unchanged. -/
theorem pairStats_swap (lookup : Lookup) (A B : String) :
    (pairStats lookup B A).one_to_many = (pairStats lookup A B).many_to_one ∧
    (pairStats lookup B A).many_to_one = (pairStats lookup A B).one_to_many ∧
    (pairStats lookup B A).one_to_one = (pairStats lookup A B).one_to_one ∧
    (pairStats lookup B A).many_to_many = (pairStats lookup A B).many_to_many ∧
    (pairStats lookup B A).no_match = (pairStats lookup A B).no_match := by
  unfold pairStats analyzePair
  simp only [List.countP_map]
  have key : ∀ e : String × MarketCodes,
      (pairRow B A e).relation = classify (getCodes e.2 B).length (getCodes e.2 A).length ∧
      (pairRow A B e).relation = classify (getCodes e.2 A).length (getCodes e.2 B).length :=
    fun e => ⟨rfl, rfl⟩
  refine ⟨?_, ?_, ?_, ?_, ?_⟩ <;>
    (apply List.countP_congr; intro e he;
     simp only [Function.comp_apply, decide_eq_true_eq, (key e).1, (key e).2])
  · exact (classify_comm _ _).2.1
  · exact ((classify_comm _ _).2.1).symm
  · exact (classify_comm _ _).1
  · exact (classify_comm _ _).2.2.1
  · exact (classify_comm _ _).2.2.2

/-- **C6.** `total_shared` is the sum of the four non-NoMatch counts;
`match_percentage` is `one_to_one / total_shared * 100` when
`total_shared > 0` and is defined as `0` when `total_shared == 0` (the
guard replaces the division, so division by zero never occurs), and it
always lies in [0, 100]. -/
theorem pairStats_percentage (lookup : Lookup) (A B : String) :
    totalShared (pairStats lookup A B)
        = (pairStats lookup A B).one_to_one + (pairStats lookup A B).one_to_many
          + (pairStats lookup A B).many_to_one + (pairStats lookup A B).many_to_many ∧
    (totalShared (pairStats lookup A B) = 0 → matchPercentage (pairStats lookup A B) = 0) ∧
    (0 < totalShared (pairStats lookup A B) →
      matchPercentage (pairStats lookup A B)
        = ((pairStats lookup A B).one_to_one : ℚ) / (totalShared (pairStats lookup A B)) * 100) ∧
    0 ≤ matchPercentage (pairStats lookup A B) ∧
    matchPercentage (pairStats lookup A B) ≤ 100 := by
  set s := pairStats lookup A B with hsdef
  have hle : s.one_to_one ≤ totalShared s := by unfold totalShared; omega
  refine ⟨rfl, ?_, ?_, ?_, ?_⟩
  · intro h; simp [matchPercentage, h]
  · intro h; rw [matchPercentage, if_pos h]
  · unfold matchPercentage; split_ifs with h
    · positivity
    · exact le_refl 0
  · unfold matchPercentage; split_ifs with h
    · have ht : (0 : ℚ) < (totalShared s : ℚ) := by exact_mod_cast h
      have h1 : (s.one_to_one : ℚ) ≤ (totalShared s : ℚ) := by exact_mod_cast hle
      have h2 : (s.one_to_one : ℚ) / (totalShared s : ℚ) ≤ 1 := (div_le_one ht).mpr h1
      linarith
    · norm_num

/-- Witness for C6: on the empty index `total_shared` is 0 and the guarded
percentage is 0. -/
theorem pairStats_percentage_witness :
    totalShared (pairStats [] "UAE" "KSA") = 0 ∧
    matchPercentage (pairStats [] "UAE" "KSA") = 0 :=
  ⟨by decide, (pairStats_percentage [] "UAE" "KSA").2.1 (by decide)⟩

/-- **C1, counterexample.** An entity at prefix `100001` whose source market
(UAE) has zero codes there while the target (KSA) has one: the pairwise
rule with (sc, tc) = (0, 1) gives NoMatch, but the Entity Mapper reports
Many-to-Many, because src/app.py line 174 tests only `tc == 0`. -/
theorem mapAsins_zero_source_cex :
    (mapAsins [{ asin := "A1", hs_code := "10000110", pfx := "100001" }]
        [("100001", [("KSA", ["10000110"])])] "UAE" ["KSA"]).map
        (fun r => r.targets.map TargetResult.relation) = [[Relation.manyToMany]] ∧
    (getCodes [("KSA", ["10000110"])] "UAE").length = 0 ∧
    (getCodes [("KSA", ["10000110"])] "KSA").length = 1 ∧
    classify 0 1 = Relation.noMatch ∧
    Relation.manyToMany ≠ Relation.noMatch := by
  decide

/-- **C1, amended.** For every entity and target market the Entity Mapper
classifies (sc, tc) with the pairwise rule of the classifier, except that
`sc == 0` with `tc > 0` yields ManyToMany rather than NoMatch; only
`tc == 0` yields NoMatch. -/
theorem mapAsins_relation (rows : List AsinRow) (lookup : Lookup)
    (src : String) (targets : List String) :
    ∀ res ∈ mapAsins rows lookup src targets, ∀ tr ∈ res.targets,
      tr.relation =
        (if (getCodes ((lookup.lookup res.pfx).getD []) src).length = 0 ∧
            0 < (getCodes ((lookup.lookup res.pfx).getD []) tr.target).length
         then Relation.manyToMany
         else classify (getCodes ((lookup.lookup res.pfx).getD []) src).length
                (getCodes ((lookup.lookup res.pfx).getD []) tr.target).length) := by
  intro res hres tr htr
  rw [mapAsins, List.mem_map] at hres
  obtain ⟨row, -, rfl⟩ := hres
  dsimp only [mapAsinRow] at htr ⊢
  rw [List.mem_map] at htr
  obtain ⟨t, -, rfl⟩ := htr
  exact classifyMap_spec _ _

/-- Witness for C1 (amended): entity `exEntity` against `exIndex` with
source UAE (sc = 1) and target KSA (tc = 2) is reported OneToMany. -/
theorem mapAsins_relation_witness :
    ∃ res ∈ mapAsins [exEntity] exIndex "UAE" ["KSA"], ∃ tr ∈ res.targets,
      tr.relation = Relation.oneToMany := by
  refine ⟨mapAsinRow exIndex "UAE" ["KSA"] exEntity, List.mem_singleton_self _, ?_⟩
  refine ⟨_, List.mem_singleton_self _, ?_⟩
  refine (mapAsins_relation [exEntity] exIndex "UAE" ["KSA"] _
    (List.mem_singleton_self _) _ (List.mem_singleton_self _)).trans ?_
  decide

/-- **C8.** For every entity whose prefix is absent from the index, every
target market is reported NoMatch with no sample codes, and no error is
possible (the lookup defaults to the empty mapping, so every market has
zero codes). -/
theorem mapAsins_unknown_prefix (rows : List AsinRow) (lookup : Lookup)
    (src : String) (targets : List String) :
    ∀ res ∈ mapAsins rows lookup src targets,
      res.pfx ∉ lookup.map Prod.fst →
      ∀ tr ∈ res.targets, tr.relation = Relation.noMatch ∧ tr.sampleCodes = [] := by
  intro res hres habs tr htr
  rw [mapAsins, List.mem_map] at hres
  obtain ⟨row, -, rfl⟩ := hres
  dsimp only [mapAsinRow] at htr habs
  have hnone : lookup.lookup row.pfx = none := by
    rw [List.lookup_eq_none_iff]
    intro p hp
    simp only [List.mem_map] at habs
    exact bne_iff_ne.mpr fun he => habs ⟨p, hp, he.symm⟩
  rw [hnone] at htr
  rw [List.mem_map] at htr
  obtain ⟨t, -, rfl⟩ := htr
  exact ⟨rfl, rfl⟩

/-- Witness for C8: the entity with prefix `999999`, absent from `exIndex`,
is reported NoMatch for KSA with no sample codes. -/
theorem mapAsins_unknown_prefix_witness :
    ∃ res ∈ mapAsins [exEntityAbsent] exIndex "UAE" ["KSA"], ∃ tr ∈ res.targets,
      tr.relation = Relation.noMatch ∧ tr.sampleCodes = [] := by
  refine ⟨mapAsinRow exIndex "UAE" ["KSA"] exEntityAbsent, List.mem_singleton_self _, ?_⟩
  refine ⟨_, List.mem_singleton_self _, ?_⟩
  exact mapAsins_unknown_prefix [exEntityAbsent] exIndex "UAE" ["KSA"] _
    (List.mem_singleton_self _) (by decide) _ (List.mem_singleton_self _)

/-- **C10.** The Entity Mapper emits exactly one output row per input
entity, in input order, carrying the id, the source code, the prefix, and
one relation entry per requested target market. -/
theorem mapAsins_rowwise (rows : List AsinRow) (lookup : Lookup)
    (src : String) (targets : List String) :
    (mapAsins rows lookup src targets).length = rows.length ∧
    ∀ (i : Nat) (row : AsinRow), rows[i]? = some row →
      ∃ res : MapResult, (mapAsins rows lookup src targets)[i]? = some res ∧
        res.asin = row.asin ∧ res.sourceCode = row.hs_code ∧ res.pfx = row.pfx ∧
        res.targets.map TargetResult.target = targets := by
  refine ⟨List.length_map _ _, ?_⟩
  intro i row hi
  refine ⟨mapAsinRow lookup src targets row, ?_, rfl, rfl, rfl, ?_⟩
  · rw [mapAsins, List.getElem?_map, hi]; rfl
  · dsimp only [mapAsinRow]
    rw [List.map_map]
    exact List.map_id _

/-- Witness for C10 at input position 0 of a one-entity list. -/
theorem mapAsins_rowwise_witness :
    ([exEntity][0]? = some exEntity) ∧
    ∃ res : MapResult, (mapAsins [exEntity] exIndex "UAE" ["KSA"])[0]? = some res ∧
      res.asin = exEntity.asin := by
  refine ⟨rfl, ?_⟩
  obtain ⟨res, h1, h2, -, -, -⟩ :=
    (mapAsins_rowwise [exEntity] exIndex "UAE" ["KSA"]).2 0 exEntity rfl
  exact ⟨res, h1, h2⟩

/-- The market scan succeeds exactly when no market has two or more codes
at the prefix. -/
lemma strictScan_isSome_iff (mc : MarketCodes) (ms : List String) :
    (strictScan mc ms).isSome ↔ ∀ m ∈ ms, (getCodes mc m).length ≤ 1 := by
  induction ms with
  | nil => simp [strictScan]
  | cons m ms ih =>
    simp only [strictScan, List.forall_mem_cons]
    by_cases h0 : (getCodes mc m).length = 0
    · simp [h0, ih]
    · by_cases h1 : (getCodes mc m).length = 1
      · simp [h0, h1, ih]
      · simp only [if_neg h0, if_neg h1, Option.isSome_none]
        constructor
        · intro h; exact absurd h (by simp)
        · intro h; exact absurd h.1 (by omega)

/-- On a strict prefix the scan returns one binding per market with exactly
one code, and counts those markets. -/
lemma strictScan_eq (mc : MarketCodes) (ms : List String)
    (h : ∀ m ∈ ms, (getCodes mc m).length ≤ 1) :
    strictScan mc ms =
      some (((ms.filter fun m => (getCodes mc m).length = 1).map
               fun m => (m, (getCodes mc m).headD "")),
            (ms.filter fun m => (getCodes mc m).length = 1).length) := by
  induction ms with
  | nil => rfl
  | cons m ms ih =>
    rw [List.forall_mem_cons] at h
    obtain ⟨hm, hms⟩ := h
    simp only [strictScan]
    by_cases h0 : (getCodes mc m).length = 0
    · rw [if_pos h0, ih hms]
      have hne : ¬((getCodes mc m).length = 1) := by omega
      simp [hne]
    · have h1 : (getCodes mc m).length = 1 := by omega
      rw [if_neg h0, if_pos h1, ih hms]
      simp [h1]

/-- Association-list lookup over keys paired with a function of the key. -/
lemma lookup_map_pair (f : String → String) (l : List String) (m : String) :
    ((l.map fun x => (x, f x)).lookup m) = if m ∈ l then some (f m) else none := by
  induction l with
  | nil => rfl
  | cons x xs ih =>
    simp only [List.map_cons, List.lookup_cons]
    by_cases hx : m = x
    · subst hx; simp
    · have hb : (m == x) = false := beq_eq_false_iff_ne.mpr hx
      simp [hb, ih, hx]

/-- The `codes_found.get(market, "")` cell: the single code when the market
has exactly one, the empty string otherwise. -/
lemma strict_cells (mc : MarketCodes) (ms : List String) (m : String) :
    ((((ms.filter fun x => (getCodes mc x).length = 1).map
        fun x => (x, (getCodes mc x).headD "")).lookup m)).getD ""
      = if m ∈ ms ∧ (getCodes mc m).length = 1 then (getCodes mc m).headD "" else "" := by
  rw [lookup_map_pair]
  by_cases h : m ∈ ms.filter fun x => (getCodes mc x).length = 1
  · rw [if_pos h]
    have hmf := List.mem_filter.mp h
    rw [if_pos ⟨hmf.1, of_decide_eq_true hmf.2⟩]
    rfl
  · rw [if_neg h, if_neg]
    · rfl
    · intro hc
      exact h (List.mem_filter.mpr ⟨hc.1, decide_eq_true hc.2⟩)

/-- **C3.** The Strict Alignment Extractor emits a row for a prefix iff no
loaded market has more than one code there and at least two markets have
exactly one (zero-code markets do not disqualify); the emitted row carries,
per market, its single code or the empty string when it has none. -/
theorem strict_row_iff (markets : List String) (p : String) (mc : MarketCodes) :
    ((strictRowOf markets (p, mc)).isSome ↔
      (∀ m ∈ markets, (getCodes mc m).length ≤ 1) ∧
        2 ≤ (markets.filter fun m => (getCodes mc m).length = 1).length) ∧
    ∀ row : StrictRow, strictRowOf markets (p, mc) = some row →
      row.pfx = p ∧
      row.cells = markets.map fun m =>
        (m, if (getCodes mc m).length = 1 then (getCodes mc m).headD "" else "") := by
  constructor
  · unfold strictRowOf
    dsimp only
    by_cases hall : ∀ m ∈ markets, (getCodes mc m).length ≤ 1
    · rw [strictScan_eq mc markets hall, Option.some_bind]
      by_cases h2 : 2 ≤ (markets.filter fun m => (getCodes mc m).length = 1).length
      · rw [if_pos h2]
        exact iff_of_true (by simp) ⟨hall, h2⟩
      · rw [if_neg h2]
        exact iff_of_false (by simp) (fun h => h2 h.2)
    · have hnone : strictScan mc markets = none := by
        cases hs : strictScan mc markets with
        | none => rfl
        | some r =>
          exact absurd ((strictScan_isSome_iff mc markets).mp (by rw [hs]; rfl)) hall
      rw [hnone]
      exact iff_of_false (by simp) (fun h => hall h.1)
  · intro row hrow
    unfold strictRowOf at hrow
    dsimp only at hrow
    have hall : ∀ m ∈ markets, (getCodes mc m).length ≤ 1 := by
      rw [← strictScan_isSome_iff mc markets]
      cases hs : strictScan mc markets with
      | some r => rfl
      | none => rw [hs] at hrow; exact absurd hrow (by simp)
    rw [strictScan_eq mc markets hall, Option.some_bind] at hrow
    split_ifs at hrow with h2
    · simp only [Option.some.injEq] at hrow
      subst hrow
      refine ⟨rfl, ?_⟩
      refine List.map_congr_left ?_
      intro m hm
      dsimp only
      rw [strict_cells mc markets m]
      by_cases hl : (getCodes mc m).length = 1
      · rw [if_pos ⟨hm, hl⟩, if_pos hl]
      · rw [if_neg (fun hc => hl hc.2), if_neg hl]

/-- Witness for C3: a prefix where UAE and KSA each hold one code and EGY
none qualifies. -/
theorem strict_row_iff_witness :
    (strictRowOf ["UAE", "KSA", "EGY"]
      ("100001", [("UAE", ["10000110"]), ("KSA", ["10000120"])])).isSome = true :=
  ((strict_row_iff ["UAE", "KSA", "EGY"] "100001"
    [("UAE", ["10000110"]), ("KSA", ["10000120"])]).1).mpr ⟨by decide, by decide⟩

/-- **C7.** The Normalizer trims whitespace, strips one trailing literal
`.0`, removes every non-digit character, retains the row exactly when the
digit string has length at least 4, and sets the prefix to the first 6
characters when the code has at least 6, otherwise to the whole code. -/
theorem processRow_spec (s : List Char) :
    (∀ c p : List Char, processRow s = some (c, p) →
      c = digitsOnly (stripDotZero (pyStrip s)) ∧
      (∀ ch ∈ c, ch.isDigit = true) ∧
      4 ≤ c.length ∧
      p = (if 6 ≤ c.length then c.take 6 else c)) ∧
    (processRow s = none ↔ (digitsOnly (stripDotZero (pyStrip s))).length < 4) ∧
    (∀ t : List Char, stripDotZero (t ++ ['.', '0']) = t) := by
  refine ⟨?_, ?_, ?_⟩
  · intro c p h
    unfold processRow at h
    dsimp only at h
    split_ifs at h with h4
    simp only [Option.some.injEq, Prod.mk.injEq] at h
    obtain ⟨rfl, rfl⟩ := h
    refine ⟨rfl, ?_, h4, ?_⟩
    · intro ch hch
      exact (List.mem_filter.mp hch).2
    · by_cases h6 : 6 ≤ (normalizeCode s).length
      · rw [if_pos h6]
      · rw [if_neg h6]
        exact List.take_of_length_le (by omega)
  · unfold processRow
    dsimp only
    split_ifs with h4
    · exact iff_of_false (by simp) (by unfold normalizeCode at h4; omega)
    · exact iff_of_true rfl (by unfold normalizeCode at h4; omega)
  · intro t
    have hlen : (t ++ ['.', '0']).length - 2 = t.length := by simp
    have hdrop : (t ++ ['.', '0']).drop ((t ++ ['.', '0']).length - 2) = ['.', '0'] := by
      rw [hlen]
      exact List.drop_left t ['.', '0']
    unfold stripDotZero
    rw [if_pos ⟨by simp, hdrop⟩, hlen]
    exact List.take_left t ['.', '0']

/-- Witness for C7 on the raw cell `" 1234.0 "`. -/
theorem processRow_spec_witness :
    processRow " 1234.0 ".toList = some ("1234".toList, "1234".toList) ∧
    "1234".toList = digitsOnly (stripDotZero (pyStrip " 1234.0 ".toList)) ∧
    4 ≤ "1234".toList.length := by
  refine ⟨by decide, ?_, ?_⟩
  · exact ((processRow_spec " 1234.0 ".toList).1 "1234".toList "1234".toList (by decide)).1
  · exact ((processRow_spec " 1234.0 ".toList).1 "1234".toList "1234".toList (by decide)).2.2.1

/-- **C9.** Column selection returns the first column whose lowercased name
contains `hs`, `hts` or `code` as a substring, and otherwise falls back to
the first column; on a nonempty column list it always returns a column
(never a fatal error). -/
theorem selectCodeCol_spec (cols : List (List Char)) (h : cols ≠ []) :
    ∃ c, selectCodeCol cols = some c ∧
      ((matchesHS c = true ∧ ∃ pre post, cols = pre ++ c :: post ∧
          ∀ x ∈ pre, matchesHS x = false) ∨
        ((∀ x ∈ cols, matchesHS x = false) ∧ cols.head? = some c)) := by
  unfold selectCodeCol
  cases hf : cols.find? matchesHS with
  | some c =>
    refine ⟨c, rfl, Or.inl ?_⟩
    obtain ⟨hc, pre, post, heq, hpre⟩ := List.find?_eq_some.mp hf
    refine ⟨hc, pre, post, heq, fun x hx => ?_⟩
    have := hpre x hx
    simpa using this
  | none =>
    have hall := List.find?_eq_none.mp hf
    cases cols with
    | nil => exact absurd rfl h
    | cons x xs =>
      refine ⟨x, rfl, Or.inr ⟨fun y hy => ?_, rfl⟩⟩
      have := hall y hy
      simpa using this

/-- Witness for C9 on the column list `["Name", "HTS Code"]`. -/
theorem selectCodeCol_spec_witness :
    (["Name".toList, "HTS Code".toList] : List (List Char)) ≠ [] ∧
    ∃ c, selectCodeCol ["Name".toList, "HTS Code".toList] = some c := by
  refine ⟨by decide, ?_⟩
  obtain ⟨c, hc, -⟩ := selectCodeCol_spec ["Name".toList, "HTS Code".toList] (by decide)
  exact ⟨c, hc⟩

end HSMap
